import Mathlib

/-!
Verification development for the Telegram channel monitor
(`telegram_channel_monitor.py`).  The Python source is shallowly embedded:
pure fragments become Lean functions, the configuration file becomes an
explicit `Disk` state, and environmental failures (network, file I/O,
JSON decoding) become explicit outcome parameters.  Python strings are
modelled by Lean `String` (a packed `List Char`), with the handful of
`str` methods the monitor uses re-implemented below on the character
list so that every definition is executable by the kernel.
-/

namespace Monitor

/-! ### Python string primitives

`pyLower`/`pyUpper` model `str.lower()`/`str.upper()` (the monitor only
ever feeds them keyword tokens; Lean's `Char.toLower`/`Char.toUpper`
cover the basic-latin range these tokens use).  `pyIn` models the Python
substring test `needle in hay`; `pyStartsWith` models `str.startswith`;
`pyReplace` models `str.replace` (all non-overlapping occurrences, left
to right, for a non-empty pattern — the monitor only replaces the
marker `"🚫 "`); `pySplit` models argument-less `str.split()`
(split on runs of whitespace, dropping empty pieces). -/

def pyLower (s : String) : String := ⟨s.data.map Char.toLower⟩

def pyUpper (s : String) : String := ⟨s.data.map Char.toUpper⟩

def pyStartsWith (s pre : String) : Bool := pre.data.isPrefixOf s.data

/-- Python substring containment: scans every suffix of the haystack. -/
def containsSub (needle : List Char) : List Char → Bool
  | [] => needle.isEmpty
  | c :: rest => needle.isPrefixOf (c :: rest) || containsSub needle rest

def pyIn (needle hay : String) : Bool := containsSub needle.data hay.data

/-- Replace all non-overlapping occurrences of `pat` (assumed non-empty)
by `rep`, scanning left to right.  The recursion is fuelled so that the
kernel can evaluate it; `replaceAllL` supplies enough fuel (one unit
per character, a match consuming at least one). -/
def replaceAllFuel (pat rep : List Char) : Nat → List Char → List Char
  | _, [] => []
  | 0, s => s
  | fuel + 1, c :: rest =>
    if pat ≠ [] ∧ pat.isPrefixOf (c :: rest) then
      rep ++ replaceAllFuel pat rep fuel ((c :: rest).drop pat.length)
    else
      c :: replaceAllFuel pat rep fuel rest

def replaceAllL (pat rep s : List Char) : List Char := replaceAllFuel pat rep s.length s

def pyReplace (s pat rep : String) : String := ⟨replaceAllL pat.data rep.data s.data⟩

/-- Argument-less Python `str.split()`: the accumulator collects the
current word in reverse. -/
def splitWsAux : List Char → List Char → List String
  | [], acc => if acc.isEmpty then [] else [⟨acc.reverse⟩]
  | c :: rest, acc =>
    if c.isWhitespace then
      if acc.isEmpty then splitWsAux rest [] else ⟨acc.reverse⟩ :: splitWsAux rest []
    else
      splitWsAux rest (c :: acc)

def pySplit (s : String) : List String := splitWsAux s.data []

/-! ### The configuration store

`Config` is the JSON object persisted in `monitor_config.json`.
The on-disk file is modelled at parse granularity: `Disk.absent` is a
missing file, `Disk.corrupt` a file whose bytes do not parse as the
configuration object (e.g. truncated JSON), and `Disk.stored cfg` a
well-formed file.  `load_config` takes a `ReadOutcome` standing for the
possibility that `open`/`json.load` raises even on an existing file;
`save_config` takes a `WriteOutcome`: the source opens the file in
`'w'` mode (truncating it) and then `json.dump`s, so a failure during
the dump leaves the file corrupted, while a failure opening leaves it
untouched. -/

structure Config where
  monitored_channels : List String
  keywords : List String
  excluded_keywords : List String
deriving DecidableEq, Repr

/-- Default returned by `load_config` when the file is missing or unreadable. -/
def defaultConfig : Config := ⟨[], [], []⟩

inductive Disk
  | absent
  | corrupt
  | stored (cfg : Config)
deriving DecidableEq, Repr

inductive ReadOutcome
  | ok
  | fail
deriving DecidableEq, Repr

inductive WriteOutcome
  | ok
  | failOpen
  | failDump
deriving DecidableEq, Repr

/-- Embedding of `load_config` (source lines 70–81): if the file exists,
try to read and parse it, logging and falling through to the default on
any exception; if it does not exist, return the default directly. -/
def load_config (d : Disk) (r : ReadOutcome) : Config :=
  match d, r with
  | .absent, _ => defaultConfig
  | _, .fail => defaultConfig
  | .corrupt, .ok => defaultConfig
  | .stored cfg, .ok => cfg

/-- Embedding of `save_config` (source lines 83–95): open the file in
`'w'` mode (truncate) and `json.dump` the whole object, returning
`true`; on exception log and return `false`.  A failure while opening
leaves the previous bytes; a failure during the dump leaves the
truncated/partial (hence unparseable) file. -/
def save_config (d : Disk) (cfg : Config) (w : WriteOutcome) : Disk × Bool :=
  match w with
  | .ok => (.stored cfg, true)
  | .failOpen => (d, false)
  | .failDump => (.corrupt, false)

/-! ### The match engine -/

inductive Decision
  | noMatch
  | suppressed
  | alert (matched : List String)
deriving DecidableEq, Repr

/-- Embedding of the alert handler's decision (source lines 452–460):
`matched = [kw for kw in keywords if kw.lower() in message_text.lower()]`;
if `matched` is non-empty, any excluded keyword occurring (lowercased)
in the text suppresses the alert, otherwise the alert fires. -/
def matchDecision (text : String) (keywords excluded : List String) : Decision :=
  let matched := keywords.filter (fun kw => pyIn (pyLower kw) (pyLower text))
  if matched.isEmpty then .noMatch
  else if excluded.any (fun ex => pyIn (pyLower ex) (pyLower text)) then .suppressed
  else .alert matched

/-! ### The sync procedure

Both structured-payload paths share the addition loop, but the removal
loops differ: the Command Poller's copy (source lines 219–229) strips
the `"🚫 "` marker from the incoming token and falls back to the
exclusion list, while the Event Stream Listener's copy
(`on_web_app_data`, source lines 388–392) looks the raw token up in
`keywords` only. -/

def marker : String := "🚫 "

/-- Source line 221: `t = raw_t.replace("🚫 ", "") if raw_t.startswith("🚫 ") else raw_t`. -/
def stripMarker (raw : String) : String :=
  if pyStartsWith raw marker then pyReplace raw marker "" else raw

/-- One iteration of the addition loop (source lines 211–214 and 379–382). -/
def syncAddStep (st : Config × List String) (t : String) : Config × List String :=
  if t ∈ st.1.keywords then st
  else ({st.1 with keywords := st.1.keywords ++ [t]}, st.2 ++ [t])

def syncAdds (cfg : Config) (toAdd : List String) : Config × List String :=
  toAdd.foldl syncAddStep (cfg, [])

/-- One iteration of the Poller's removal loop (source lines 220–228);
`stripMarker raw` plays the loop body's local `t`. -/
def syncRemoveStepP (st : Config × List String) (raw : String) : Config × List String :=
  if stripMarker raw ∈ st.1.keywords then
    ({st.1 with keywords := st.1.keywords.erase (stripMarker raw)}, st.2 ++ [stripMarker raw])
  else if stripMarker raw ∈ st.1.excluded_keywords then
    ({st.1 with excluded_keywords := st.1.excluded_keywords.erase (stripMarker raw)},
      st.2 ++ [marker ++ stripMarker raw])
  else st

def syncRemovesP (cfg : Config) (toRemove : List String) : Config × List String :=
  toRemove.foldl syncRemoveStepP (cfg, [])

/-- One iteration of the Listener's removal loop (source lines 389–392):
no marker stripping and no exclusion-list fallback. -/
def syncRemoveStepL (st : Config × List String) (t : String) : Config × List String :=
  if t ∈ st.1.keywords then
    ({st.1 with keywords := st.1.keywords.erase t}, st.2 ++ [t])
  else st

def syncRemovesL (cfg : Config) (toRemove : List String) : Config × List String :=
  toRemove.foldl syncRemoveStepL (cfg, [])

structure SyncResult where
  config : Config
  added : List String
  removed : List String
  updated : Bool
deriving DecidableEq, Repr

/-- The Poller's `action == "sync_config"` body (source lines 209–232):
additions, then removals, `updated` set when either summary list is
non-empty. -/
def syncPoller (cfg : Config) (toAdd toRemove : List String) : SyncResult :=
  ⟨(syncRemovesP (syncAdds cfg toAdd).1 toRemove).1,
    (syncAdds cfg toAdd).2,
    (syncRemovesP (syncAdds cfg toAdd).1 toRemove).2,
    !(syncAdds cfg toAdd).2.isEmpty
      || !(syncRemovesP (syncAdds cfg toAdd).1 toRemove).2.isEmpty⟩

/-- The Listener's `action == "sync_config"` body (source lines 373–395). -/
def syncListener (cfg : Config) (toAdd toRemove : List String) : SyncResult :=
  ⟨(syncRemovesL (syncAdds cfg toAdd).1 toRemove).1,
    (syncAdds cfg toAdd).2,
    (syncRemovesL (syncAdds cfg toAdd).1 toRemove).2,
    !(syncAdds cfg toAdd).2.isEmpty
      || !(syncRemovesL (syncAdds cfg toAdd).1 toRemove).2.isEmpty⟩

inductive SyncNote
  | updatedOk
  | saveError
  | noop
deriving DecidableEq, Repr

/-- The tail of both sync bodies (source lines 234–244 and 397–405):
persist and summarise only when something changed, otherwise send the
informational no-op notification and leave the store untouched. -/
def syncCommit (disk : Disk) (res : SyncResult) (w : WriteOutcome) : Disk × SyncNote :=
  if res.updated then
    let s := save_config disk res.config w
    (s.1, if s.2 then .updatedOk else .saveError)
  else (disk, .noop)

/-! ### The text-command procedure (configuration part)

`applyCmdArg` is the configuration transform of the command dispatch
(source lines 263–313): `cmd` is the whitespace-split head lowercased,
`arg` the second piece uppercased (empty when absent).  The nested
`if arg:` / membership tests of the source are flattened into one
conjunction per verb, which leaves the resulting configuration
unchanged in exactly the same cases (usage hint, duplicate, not
found). -/

def applyCmdArg (cfg : Config) (cmd arg : String) : Config :=
  if cmd = "/insert" then
    (if arg ≠ "" ∧ arg ∉ cfg.keywords then {cfg with keywords := cfg.keywords ++ [arg]} else cfg)
  else if cmd = "/remove" then
    (if arg ≠ "" ∧ arg ∈ cfg.keywords then {cfg with keywords := cfg.keywords.erase arg} else cfg)
  else if cmd = "/exclude" then
    (if arg ≠ "" ∧ arg ∉ cfg.excluded_keywords then
      {cfg with excluded_keywords := cfg.excluded_keywords ++ [arg]} else cfg)
  else if cmd = "/include" then
    (if arg ≠ "" ∧ arg ∈ cfg.excluded_keywords then
      {cfg with excluded_keywords := cfg.excluded_keywords.erase arg} else cfg)
  else cfg

/-- Configuration reached by one text command (source lines 251–313):
non-command text leaves everything alone, otherwise the verb dispatch
runs on the split pieces. -/
def applyTextCommand (cfg : Config) (text : String) : Config :=
  if pyStartsWith text "/" then
    let parts := pySplit text
    applyCmdArg cfg (pyLower (parts.headD ""))
      (if 1 < parts.length then pyUpper (parts.getD 1 "") else "")
  else cfg

/-! ### The keyword-list invariant -/

/-- Spec-side invariant on each token list: every token is uppercase
(fixed by `pyUpper`) and there is no duplicate under case-normalised
comparison. -/
def listInv (l : List String) : Prop :=
  (∀ t ∈ l, pyUpper t = t) ∧ (l.map pyUpper).Nodup

instance (l : List String) : Decidable (listInv l) := by
  unfold listInv
  infer_instance

def configInv (c : Config) : Prop :=
  listInv c.keywords ∧ listInv c.excluded_keywords

instance (c : Config) : Decidable (configInv c) := by
  unfold configInv
  infer_instance

/-! ### The text-command procedure with persistence and responses

`runCommand` embeds the whole text-command dispatch (source lines
251–354) including the persistence attempt and the response string sent
back through the alert bot; an empty response string models `continue`
without `send_via_bot`.  The `/status` environment fields are rendered
for the local (non-CI) environment. -/

def genericSaveError : String := "❌ Erro ao salvar configuração."

def runCommand (disk : Disk) (r : ReadOutcome) (text : String) (w : WriteOutcome) :
    Disk × String :=
  if pyStartsWith text "/" then
    let config := load_config disk r
    let parts := pySplit text
    let cmd := pyLower (parts.headD "")
    let arg := if 1 < parts.length then pyUpper (parts.getD 1 "") else ""
    if cmd = "/insert" then
      if arg ≠ "" then
        if arg ∉ config.keywords then
          let s := save_config disk {config with keywords := config.keywords ++ [arg]} w
          if s.2 then (s.1, "✅ Token <b>" ++ arg ++ "</b> adicionado ao monitoramento.")
          else (s.1, genericSaveError)
        else (disk, "ℹ️ Token <b>" ++ arg ++ "</b> já está na lista.")
      else (disk, "⚠️ Uso: /insert [TOKEN]")
    else if cmd = "/remove" then
      if arg ≠ "" then
        if arg ∈ config.keywords then
          let s := save_config disk {config with keywords := config.keywords.erase arg} w
          if s.2 then (s.1, "✅ Token <b>" ++ arg ++ "</b> removido do monitoramento.")
          else (s.1, genericSaveError)
        else (disk, "⚠️ Token <b>" ++ arg ++ "</b> não encontrado na lista.")
      else (disk, "⚠️ Uso: /remove [TOKEN]")
    else if cmd = "/exclude" then
      if arg ≠ "" then
        if arg ∉ config.excluded_keywords then
          let s := save_config disk
            {config with excluded_keywords := config.excluded_keywords ++ [arg]} w
          if s.2 then (s.1, "✅ Palavra <b>" ++ arg ++ "</b> adicionada à lista de exclusão.")
          else (s.1, genericSaveError)
        else (disk, "ℹ️ Palavra <b>" ++ arg ++ "</b> já está excluída.")
      else (disk, "⚠️ Uso: /exclude [PALAVRA]")
    else if cmd = "/include" then
      if arg ≠ "" then
        if arg ∈ config.excluded_keywords then
          let s := save_config disk
            {config with excluded_keywords := config.excluded_keywords.erase arg} w
          if s.2 then
            (s.1, "✅ Palavra <b>" ++ arg
              ++ "</b> removida da lista de exclusão (voltará a ser monitorada).")
          else (s.1, genericSaveError)
        else (disk, "⚠️ Palavra <b>" ++ arg ++ "</b> não encontrada na lista de exclusão.")
      else (disk, "⚠️ Uso: /include [PALAVRA]")
    else if cmd = "/status" then
      (disk, "📊 <b>Status do Bot</b>\n\n🖥️ Ambiente: Local\n📋 Keywords: "
        ++ toString config.keywords.length ++ "\n🚫 Excluídas: "
        ++ toString config.excluded_keywords.length ++ "\n📡 Canais: "
        ++ String.intercalate ", " config.monitored_channels ++ "\n🔑 Session: Local file")
    else if cmd = "/list" then
      (disk, "📋 <b>Monitoramento Atual</b>\n\n<b>Keywords:</b>\n"
        ++ String.intercalate ", " config.keywords ++ "\n\n<b>Excluídas:</b>\n"
        ++ String.intercalate ", " config.excluded_keywords)
    else if cmd = "/painel" then (disk, "")
    else (disk, "")
  else (disk, "")

/-! ### The per-update Poller dispatch -/

inductive WebAppField
  | absent
  | malformed
  | payload (action : String) (add : List String) (remove : List String)
deriving DecidableEq, Repr

/-- One `getUpdates` record as the Poller reads it: its identifier, the
sender chat id (`None` when the update carries no `message`), the
decoded `web_app_data` field, and the message text. -/
structure Update where
  update_id : Nat
  chat_id : Option Int
  webApp : WebAppField
  text : Option String
deriving DecidableEq, Repr

/-- Python `str(chat_id)` where `chat_id` came from
`message.get("chat", {}).get("id")`. -/
def pyStrChat : Option Int → String
  | none => "None"
  | some n => toString n

/-- Python truthiness of the `chat_id` value, as tested by
`if chat_id:` before the warning log (source line 188). -/
def pyTruthyChat : Option Int → Bool
  | none => false
  | some n => n != 0

/-- The human-readable summary joined from the added/removed lines
(source lines 216, 231, 238). -/
def syncSummary (res : SyncResult) : String :=
  String.intercalate "\n"
    ((if res.added.isEmpty then []
      else ["✅ Adicionados: " ++ String.intercalate ", " res.added])
      ++ (if res.removed.isEmpty then []
          else ["❌ Removidos: " ++ String.intercalate ", " res.removed]))

/-- Embedding of the Poller's handling of a single authorized-or-not
update (source lines 181–354): the trust check precedes everything,
then the structured Mini-App branch, then the text-command branch.
The returned triple is the disk afterwards, the list of messages sent
via the alert bot, and whether the unauthorized warning was logged. -/
def processUpdate (myId : String) (disk : Disk) (r : ReadOutcome) (w : WriteOutcome)
    (u : Update) : Disk × List String × Bool :=
  if pyStrChat u.chat_id ≠ myId then
    (disk, [], pyTruthyChat u.chat_id)
  else
    match u.webApp with
    | .malformed => (disk, ["❌ Erro ao ler dados do painel: JSONDecodeError"], false)
    | .payload action toAdd toRemove =>
      let debugMsg := "🔍 <b>Mini App recebido:</b>\n+" ++ toString toAdd.length
        ++ " adds, -" ++ toString toRemove.length ++ " removes"
      if action = "sync_config" then
        let res := syncPoller (load_config disk r) toAdd toRemove
        if res.updated then
          let preMsg := "💾 Salvando config... (" ++ toString res.config.keywords.length
            ++ " keywords)"
          let s := save_config disk res.config w
          if s.2 then
            (s.1, [debugMsg, preMsg, "📱 <b>Painel Atualizado:</b>\n\n" ++ syncSummary res],
              false)
          else
            (s.1, [debugMsg, preMsg, "❌ Erro ao salvar configurações do Mini App."], false)
        else
          (disk,
            [debugMsg, "ℹ️ Nenhuma alteração real foi necessária (tokens já atualizados)."],
            false)
      else (disk, [debugMsg], false)
    | .absent =>
      let res := runCommand disk r (u.text.getD "") w
      (res.1, if res.2 = "" then [] else [res.2], false)

/-! ### The poll loop cursor -/

/-- One batch of the long-poll loop (source lines 181–358): the cursor
is set to each update's identifier *before* its processing; an
exception while processing an update is caught outside the `for` loop,
abandoning the rest of the batch with the cursor already advanced.
`fails` abstracts whether processing a given update raises. -/
def runBatch (fails : Update → Bool) (cursor : Nat) : List Update → Nat
  | [] => cursor
  | u :: rest => if fails u then u.update_id else runBatch fails u.update_id rest

/-- The next poll requests updates with identifier at least
`cursor + 1` (source line 176: `offset = last_update_id + 1`). -/
def nextOffset (cursor : Nat) : Nat := cursor + 1

/-! ## Theorems -/

/-! ### Bridge between the boolean substring test and `<:+:` -/

theorem containsSub_iff (n : List Char) (h : List Char) :
    containsSub n h = true ↔ n <:+: h := by
  induction h with
  | nil => simp [containsSub, List.isEmpty_iff, List.infix_nil]
  | cons c t ih =>
    simp [containsSub, ih, List.infix_cons_iff]

theorem pyIn_iff (needle hay : String) :
    pyIn needle hay = true ↔ needle.data <:+: hay.data :=
  containsSub_iff _ _

/-! ### Claims C1, C7, C8 -/

/-- C1: for every message text `M`, keyword list `K` and exclusion list
`E`, if some keyword of `K` is a case-insensitive substring of `M` and
some entry of `E` is also a case-insensitive substring of `M`, the
match decision is `suppressed` (so no alert is dispatched), never
`alert`. -/
theorem c1_excluded_suppresses (M : String) (K E : List String)
    (hk : ∃ kw ∈ K, (pyLower kw).data <:+: (pyLower M).data)
    (he : ∃ e ∈ E, (pyLower e).data <:+: (pyLower M).data) :
    matchDecision M K E = .suppressed := by
  obtain ⟨kw, hkmem, hksub⟩ := hk
  obtain ⟨e, hemem, hesub⟩ := he
  unfold matchDecision
  have hfilter : K.filter (fun kw => pyIn (pyLower kw) (pyLower M)) ≠ [] := by
    intro hnil
    have := List.filter_eq_nil_iff.mp hnil kw hkmem
    exact this ((pyIn_iff _ _).mpr hksub)
  have hempty : (K.filter (fun kw => pyIn (pyLower kw) (pyLower M))).isEmpty = false := by
    rcases hf : K.filter (fun kw => pyIn (pyLower kw) (pyLower M)) with _ | ⟨a, l⟩
    · exact absurd hf hfilter
    · rfl
  have hany : E.any (fun ex => pyIn (pyLower ex) (pyLower M)) = true :=
    List.any_eq_true.mpr ⟨e, hemem, (pyIn_iff _ _).mpr hesub⟩
  simp only [hempty, hany, Bool.false_eq_true, if_false, if_true]

/-- C1 witness: the spec's own scenario, keywords `["BTC"]`, excluded
`["SCAM"]`, message `"BTC SCAM alert"`. -/
theorem c1_excluded_suppresses_witness :
    matchDecision "BTC SCAM alert" ["BTC"] ["SCAM"] = .suppressed :=
  c1_excluded_suppresses "BTC SCAM alert" ["BTC"] ["SCAM"]
    ⟨"BTC", by decide, by decide⟩ ⟨"SCAM", by decide, by decide⟩

/-- C7: if no keyword is a case-insensitive substring of the message,
the decision is `noMatch` — no alert and no suppression notice —
whatever the exclusion list contains. -/
theorem c7_no_keyword_no_match (M : String) (K E : List String)
    (hk : ∀ kw ∈ K, ¬ (pyLower kw).data <:+: (pyLower M).data) :
    matchDecision M K E = .noMatch := by
  unfold matchDecision
  have hfilter : K.filter (fun kw => pyIn (pyLower kw) (pyLower M)) = [] := by
    apply List.filter_eq_nil_iff.mpr
    intro a ha hin
    exact hk a ha ((pyIn_iff _ _).mp hin)
  simp only [hfilter, List.isEmpty_nil, if_true]

/-- C7 witness: keywords `["BTC"]` do not occur in `"hello world"`,
so the decision is `noMatch` even though the exclusion list matches. -/
theorem c7_no_keyword_no_match_witness :
    matchDecision "hello world" ["BTC"] ["hello"] = .noMatch :=
  c7_no_keyword_no_match "hello world" ["BTC"] ["hello"] (by decide)

/-- C8: `load_config` never fails its caller: a missing file, a read
error, and an unparseable file all yield the empty default
configuration. -/
theorem c8_load_never_fails (d : Disk) (r : ReadOutcome) :
    load_config .absent r = defaultConfig
    ∧ load_config d .fail = defaultConfig
    ∧ load_config .corrupt r = defaultConfig := by
  refine ⟨?_, ?_, ?_⟩
  · cases r <;> rfl
  · cases d <;> rfl
  · cases r <;> rfl

/-! ### Evaluation lemmas for `replaceAllL` -/

theorem replaceAllFuel_congr (pat rep : List Char) :
    ∀ fuel fuel' s, s.length ≤ fuel → s.length ≤ fuel' →
      replaceAllFuel pat rep fuel s = replaceAllFuel pat rep fuel' s := by
  intro fuel
  induction fuel with
  | zero =>
    intro fuel' s hs _
    have : s = [] := List.eq_nil_of_length_eq_zero (Nat.le_zero.mp hs)
    subst this
    cases fuel' <;> rfl
  | succ f ih =>
    intro fuel' s hs hs'
    cases s with
    | nil => cases fuel' <;> rfl
    | cons c rest =>
      cases fuel' with
      | zero => exact absurd hs' (by simp)
      | succ f' =>
        rw [replaceAllFuel, replaceAllFuel]
        by_cases h : pat ≠ [] ∧ pat.isPrefixOf (c :: rest)
        · rw [if_pos h, if_pos h]
          have hlen : ((c :: rest).drop pat.length).length ≤ f := by
            have hpat : 0 < pat.length := List.length_pos.mpr h.1
            simp only [List.length_drop, List.length_cons]
            simp only [List.length_cons] at hs
            omega
          have hlen' : ((c :: rest).drop pat.length).length ≤ f' := by
            have hpat : 0 < pat.length := List.length_pos.mpr h.1
            simp only [List.length_drop, List.length_cons]
            simp only [List.length_cons] at hs'
            omega
          rw [ih f' _ hlen hlen']
        · rw [if_neg h, if_neg h]
          have hlen : rest.length ≤ f := by
            simp only [List.length_cons] at hs; omega
          have hlen' : rest.length ≤ f' := by
            simp only [List.length_cons] at hs'; omega
          rw [ih f' _ hlen hlen']

theorem replaceAllL_nil (pat rep : List Char) : replaceAllL pat rep [] = [] := rfl

theorem replaceAllL_no_occurrence (pat rep : List Char) :
    ∀ s, ¬ pat <:+: s → replaceAllL pat rep s = s := by
  intro s
  induction s with
  | nil => intro _; rfl
  | cons c rest ih =>
    intro h
    have hnp : ¬ (pat ≠ [] ∧ pat.isPrefixOf (c :: rest)) := by
      rintro ⟨-, hpre⟩
      have : pat <+: c :: rest := ( List.isPrefixOf_iff_prefix).mp hpre
      exact h (List.infix_cons_iff.mpr (Or.inl this))
    have hrest : ¬ pat <:+: rest := fun hinf => h (List.infix_cons hinf)
    unfold replaceAllL
    rw [List.length_cons, replaceAllFuel, if_neg hnp]
    exact congrArg (c :: ·) (ih hrest)

theorem replaceAllL_self_append (p : Char) (ps rep t : List Char) :
    replaceAllL (p :: ps) rep ((p :: ps) ++ t) = rep ++ replaceAllL (p :: ps) rep t := by
  have hpre : (p :: ps).isPrefixOf ((p :: ps) ++ t) = true :=
    ( List.isPrefixOf_iff_prefix).mpr (List.prefix_append _ _)
  have hcond : (p :: ps) ≠ [] ∧ (p :: ps).isPrefixOf (p :: (ps ++ t)) := by
    refine ⟨by simp, ?_⟩
    rw [← List.cons_append]
    exact hpre
  unfold replaceAllL
  have hlen : (p :: (ps ++ t)).length = (ps.length + t.length) + 1 := by
    simp [List.length_append]
  rw [List.cons_append, hlen, replaceAllFuel, if_pos hcond]
  congr 1
  rw [← List.cons_append, List.drop_left]
  apply replaceAllFuel_congr
  · omega
  · exact le_refl _

/-! ### Claims C2 and C10 -/

/-- C2 counterexample: the claim asserts that the Listener's
structured-event path, like the Poller's, removes a token found in
`excluded_keywords`; but for configuration `⟨[], [], ["X"]⟩` and
payload `remove = ["X"]`, the Listener's loop leaves `excluded_keywords`
untouched and records nothing, while the Poller's loop does remove it. -/
theorem c2_counterexample :
    (syncRemovesL ⟨[], [], ["X"]⟩ ["X"]).1.excluded_keywords = ["X"]
    ∧ (syncRemovesL ⟨[], [], ["X"]⟩ ["X"]).2 = []
    ∧ (syncRemovesP ⟨[], [], ["X"]⟩ ["X"]).1.excluded_keywords = []
    ∧ (syncRemovesP ⟨[], [], ["X"]⟩ ["X"]).2 = ["🚫 X"] := by
  decide

/-- C2 (amended): the Poller's removal loop removes each `remove` token
(after marker stripping) from `keywords` when present there — leaving
`excluded_keywords` untouched even if the token also occurs there —
otherwise from `excluded_keywords` with a `"🚫 "` marker recorded in
the summary; the Listener's removal loop never touches
`excluded_keywords`. -/
theorem c2_remove_preference (cfg : Config) (acc : List String) (raw : String) :
    (stripMarker raw ∈ cfg.keywords →
      syncRemoveStepP (cfg, acc) raw =
        ({cfg with keywords := cfg.keywords.erase (stripMarker raw)},
          acc ++ [stripMarker raw]))
    ∧ (stripMarker raw ∉ cfg.keywords → stripMarker raw ∈ cfg.excluded_keywords →
      syncRemoveStepP (cfg, acc) raw =
        ({cfg with excluded_keywords := cfg.excluded_keywords.erase (stripMarker raw)},
          acc ++ [marker ++ stripMarker raw]))
    ∧ (∀ rs, (syncRemovesL cfg rs).1.excluded_keywords = cfg.excluded_keywords) := by
  refine ⟨?_, ?_, ?_⟩
  · intro hmem
    unfold syncRemoveStepP
    rw [if_pos hmem]
  · intro hnk he
    unfold syncRemoveStepP
    rw [if_neg hnk, if_pos he]
  · intro rs
    suffices h : ∀ (rs : List String) (st : Config × List String),
        (rs.foldl syncRemoveStepL st).1.excluded_keywords = st.1.excluded_keywords by
      exact h rs (cfg, [])
    intro rs
    induction rs with
    | nil => intro st; rfl
    | cons r rest ih =>
      intro st
      rw [List.foldl_cons, ih]
      unfold syncRemoveStepL
      by_cases hr : r ∈ st.1.keywords
      · rw [if_pos hr]
      · rw [if_neg hr]

/-- C2 witness: on configuration `⟨[], ["BTC"], ["SCAM"]⟩` the Poller's
loop removes `"BTC"` from `keywords` only. -/
theorem c2_remove_preference_witness :
    syncRemoveStepP (⟨[], ["BTC"], ["SCAM"]⟩, []) "BTC" = (⟨[], [], ["SCAM"]⟩, ["BTC"]) := by
  have h := (c2_remove_preference ⟨[], ["BTC"], ["SCAM"]⟩ [] "BTC").1 (by decide)
  exact h.trans (by decide)

/-- C10 counterexample: the claim says a `remove` token beginning with
`"🚫 "` has that prefix stripped, so that a token previously reported
as removed-from-exclusions replays verbatim.  For the excluded token
`"A🚫 B"` the previous summary reports `"🚫 A🚫 B"`; replaying that
verbatim strips *all* marker occurrences, yielding `"AB"` rather than
the prefix-stripped `"A🚫 B"`, and removes nothing. -/
theorem c10_counterexample :
    stripMarker "🚫 A🚫 B" = "AB"
    ∧ stripMarker "🚫 A🚫 B" ≠ "A🚫 B"
    ∧ syncRemoveStepP (⟨[], [], ["A🚫 B"]⟩, []) "🚫 A🚫 B" = (⟨[], [], ["A🚫 B"]⟩, []) := by
  decide

/-- C10 (amended): the Poller's loop removes *all* occurrences of the
marker from a `remove` token that begins with it — which coincides with
stripping the prefix exactly when the marker does not occur in the
remainder, so a removed-from-exclusions token replays verbatim provided
the underlying token contains no marker itself — and tokens not
beginning with the marker are left alone; the Listener's loop performs
no stripping at all, looking up the raw token. -/
theorem c10_marker_strip :
    (∀ raw, pyStartsWith raw marker = false → stripMarker raw = raw)
    ∧ (∀ t : String, ¬ marker.data <:+: t.data → stripMarker (marker ++ t) = t)
    ∧ (∀ (cfg : Config) (acc : List String) (t : String),
        t ∈ cfg.excluded_keywords → t ∉ cfg.keywords → ¬ marker.data <:+: t.data →
        syncRemoveStepP (cfg, acc) (marker ++ t) =
          ({cfg with excluded_keywords := cfg.excluded_keywords.erase t}, acc ++ [marker ++ t]))
    ∧ (∀ (cfg : Config) (acc : List String) (raw : String),
        raw ∉ cfg.keywords → syncRemoveStepL (cfg, acc) raw = (cfg, acc)) := by
  have hstrip : ∀ t : String, ¬ marker.data <:+: t.data → stripMarker (marker ++ t) = t := by
    intro t hinf
    obtain ⟨td⟩ := t
    have hsw : pyStartsWith (marker ++ ⟨td⟩) marker = true := by
      unfold pyStartsWith
      rw [String.data_append]
      exact ( List.isPrefixOf_iff_prefix).mpr (List.prefix_append _ _)
    unfold stripMarker
    rw [hsw, if_pos rfl]
    unfold pyReplace
    rw [String.data_append]
    show String.mk (replaceAllL ('🚫' :: [' ']) [] (('🚫' :: [' ']) ++ td)) = ⟨td⟩
    rw [replaceAllL_self_append, List.nil_append]
    exact congrArg String.mk (replaceAllL_no_occurrence ('🚫' :: [' ']) [] td hinf)
  refine ⟨?_, hstrip, ?_, ?_⟩
  · intro raw hsw
    unfold stripMarker
    rw [hsw]
    rfl
  · intro cfg acc t he hnk hinf
    unfold syncRemoveStepP
    rw [hstrip t hinf]
    rw [if_neg hnk, if_pos he]
  · intro cfg acc raw hnk
    unfold syncRemoveStepL
    rw [if_neg hnk]

/-- C10 witness: replaying the marker-prefixed summary entry
`"🚫 SCAM"` removes `"SCAM"` from the exclusion list. -/
theorem c10_marker_strip_witness :
    syncRemoveStepP (⟨[], ["BTC"], ["SCAM"]⟩, []) "🚫 SCAM" =
      (⟨[], ["BTC"], []⟩, ["🚫 SCAM"]) := by
  have h := (c10_marker_strip).2.2.1 ⟨[], ["BTC"], ["SCAM"]⟩ [] "SCAM"
    (by decide) (by decide) (by decide)
  exact h.trans (by decide)

/-! ### `Char.toUpper` is idempotent, hence so is `pyUpper` -/

theorem charToUpper_ofNat_fixed (n : Nat) (h1 : 97 ≤ n) (h2 : n ≤ 122) :
    Char.toUpper (Char.ofNat (n - 32)) = Char.ofNat (n - 32) := by
  interval_cases n <;> decide

theorem charToUpper_idem (c : Char) : c.toUpper.toUpper = c.toUpper := by
  have hup : c.toUpper = if c.toNat ≥ 97 ∧ c.toNat ≤ 122 then Char.ofNat (c.toNat - 32) else c :=
    rfl
  by_cases h : c.toNat ≥ 97 ∧ c.toNat ≤ 122
  · rw [hup, if_pos h]
    exact charToUpper_ofNat_fixed c.toNat h.1 h.2
  · rw [hup, if_neg h, hup, if_neg h]

theorem map_id_of_fixed {α : Type} (f : α → α) :
    ∀ l : List α, (∀ t ∈ l, f t = t) → l.map f = l := by
  intro l h
  induction l with
  | nil => rfl
  | cons a t ih =>
    simp only [List.map_cons]
    rw [h a (by simp), ih (fun x hx => h x (by simp [hx]))]

theorem pyUpper_idem (s : String) : pyUpper (pyUpper s) = pyUpper s := by
  obtain ⟨l⟩ := s
  show String.mk ((l.map Char.toUpper).map Char.toUpper) = String.mk (l.map Char.toUpper)
  rw [List.map_map]
  exact congrArg String.mk (List.map_congr_left (fun a _ => charToUpper_idem a))

/-! ### Invariant preservation helpers -/

theorem listInv_nodup (l : List String) (h : listInv l) : l.Nodup := by
  have := h.2
  rwa [map_id_of_fixed pyUpper l h.1] at this

theorem listInv_sublist (l' l : List String) (hs : List.Sublist l' l) (h : listInv l) :
    listInv l' := by
  have hup : ∀ t ∈ l', pyUpper t = t := fun t ht => h.1 t (hs.subset ht)
  refine ⟨hup, ?_⟩
  rw [map_id_of_fixed pyUpper l' hup]
  exact (listInv_nodup l h).sublist hs

theorem listInv_append_upper (l : List String) (s : String)
    (h : listInv l) (hs : pyUpper s = s) (hmem : s ∉ l) : listInv (l ++ [s]) := by
  have hup : ∀ t ∈ l ++ [s], pyUpper t = t := by
    intro t ht
    rcases List.mem_append.mp ht with h' | h'
    · exact h.1 t h'
    · simp only [List.mem_singleton] at h'
      subst h'
      exact hs
  refine ⟨hup, ?_⟩
  rw [map_id_of_fixed pyUpper _ hup]
  rw [List.nodup_append]
  refine ⟨listInv_nodup l h, List.nodup_singleton s, ?_⟩
  intro a ha hamem
  simp only [List.mem_singleton] at hamem
  subst hamem
  exact hmem ha

theorem listInv_erase (l : List String) (s : String) (h : listInv l) : listInv (l.erase s) :=
  listInv_sublist _ _ (List.erase_sublist s l) h

/-- The removal folds only shrink both lists (as sublists). -/
theorem syncRemovesP_sublist :
    ∀ (rs : List String) (st : Config × List String),
      List.Sublist (rs.foldl syncRemoveStepP st).1.keywords st.1.keywords
      ∧ List.Sublist (rs.foldl syncRemoveStepP st).1.excluded_keywords
          st.1.excluded_keywords := by
  intro rs
  induction rs with
  | nil => intro st; exact ⟨List.Sublist.refl _, List.Sublist.refl _⟩
  | cons r rest ih =>
    intro st
    rw [List.foldl_cons]
    refine ⟨(ih _).1.trans ?_, (ih _).2.trans ?_⟩ <;>
      (unfold syncRemoveStepP; split_ifs with h1 h2) <;>
        first
          | exact List.erase_sublist _ _
          | exact List.Sublist.refl _

theorem syncRemovesL_sublist :
    ∀ (rs : List String) (st : Config × List String),
      List.Sublist (rs.foldl syncRemoveStepL st).1.keywords st.1.keywords
      ∧ List.Sublist (rs.foldl syncRemoveStepL st).1.excluded_keywords
          st.1.excluded_keywords := by
  intro rs
  induction rs with
  | nil => intro st; exact ⟨List.Sublist.refl _, List.Sublist.refl _⟩
  | cons r rest ih =>
    intro st
    rw [List.foldl_cons]
    refine ⟨(ih _).1.trans ?_, (ih _).2.trans ?_⟩ <;>
      (unfold syncRemoveStepL; split_ifs with h1) <;>
        first
          | exact List.erase_sublist _ _
          | exact List.Sublist.refl _

/-- Any verb dispatch with an argument fixed by `pyUpper` preserves the
invariant. -/
theorem applyCmdArg_inv (cfg : Config) (h : configInv cfg) (cmd arg : String)
    (harg : pyUpper arg = arg) : configInv (applyCmdArg cfg cmd arg) := by
  unfold applyCmdArg
  split_ifs with h1 h2 h3 h4 h5 h6 h7 h8 <;>
    first
      | exact h
      | exact ⟨listInv_append_upper _ _ h.1 harg h2.2, h.2⟩
      | exact ⟨listInv_erase _ _ h.1, h.2⟩
      | exact ⟨h.1, listInv_append_upper _ _ h.2 harg h6.2⟩
      | exact ⟨h.1, listInv_erase _ _ h.2⟩

/-! ### Claim C3 -/

/-- C3 counterexample: the claim includes the Sync Procedure's add step
among the invariant-preserving operations, but that step tests exact
membership without case normalisation: on `keywords = ["BTC"]` (which
satisfies the invariant) adding the payload token `"btc"` appends it,
leaving a lowercase token and a case-normalised duplicate. -/
theorem c3_counterexample :
    configInv ⟨[], ["BTC"], []⟩
    ∧ (syncAdds ⟨[], ["BTC"], []⟩ ["btc"]).1.keywords = ["BTC", "btc"]
    ∧ ¬ configInv (syncAdds ⟨[], ["BTC"], []⟩ ["btc"]).1 := by
  refine ⟨by decide, by decide, by decide⟩

/-- C3 (amended): the four text commands preserve the invariant (their
argument is uppercased before any lookup), and the sync removal loops
preserve it (they only shrink the lists); the sync *add* loop, however,
preserves it only for payloads of tokens that are themselves uppercase
and not case-normalised duplicates, since it tests exact membership —
see the counterexample. -/
theorem c3_commands_preserve_invariant (cfg : Config) (h : configInv cfg) :
    (∀ text, configInv (applyTextCommand cfg text))
    ∧ (∀ rs, configInv (syncRemovesP cfg rs).1 ∧ configInv (syncRemovesL cfg rs).1) := by
  constructor
  · intro text
    unfold applyTextCommand
    split_ifs with hsw
    · refine applyCmdArg_inv cfg h _ _ ?_
      split_ifs with hl
      · exact pyUpper_idem _
      · rfl
    · exact h
  · intro rs
    constructor
    · have hs := syncRemovesP_sublist rs (cfg, [])
      exact ⟨listInv_sublist _ _ hs.1 h.1, listInv_sublist _ _ hs.2 h.2⟩
    · have hs := syncRemovesL_sublist rs (cfg, [])
      exact ⟨listInv_sublist _ _ hs.1 h.1, listInv_sublist _ _ hs.2 h.2⟩

/-- C3 witness: `/insert eth` on the invariant-satisfying configuration
`⟨[], ["BTC"], []⟩` preserves the invariant. -/
theorem c3_commands_preserve_invariant_witness :
    configInv (⟨[], ["BTC"], []⟩ : Config)
    ∧ configInv (applyTextCommand ⟨[], ["BTC"], []⟩ "/insert eth") :=
  ⟨by decide, (c3_commands_preserve_invariant ⟨[], ["BTC"], []⟩ (by decide)).1 "/insert eth"⟩

/-! ### Sync idempotence machinery (claim C4)

Lemmas about the addition and removal folds, all stated over an
arbitrary accumulator state `st` so they apply to both applications of
a payload. -/

theorem syncAddStep_mem_mono (st : Config × List String) (t a : String)
    (ha : a ∈ st.1.keywords) : a ∈ (syncAddStep st t).1.keywords := by
  unfold syncAddStep
  split_ifs with h
  · exact ha
  · exact List.mem_append_left _ ha

theorem syncAddStep_mem_self (st : Config × List String) (t : String) :
    t ∈ (syncAddStep st t).1.keywords := by
  unfold syncAddStep
  split_ifs with h
  · exact h
  · exact List.mem_append_right _ (List.mem_singleton_self t)

theorem syncAdds_mem_mono :
    ∀ (ts : List String) (st : Config × List String) (a : String),
      a ∈ st.1.keywords → a ∈ (ts.foldl syncAddStep st).1.keywords := by
  intro ts
  induction ts with
  | nil => intro st a ha; exact ha
  | cons t rest ih =>
    intro st a ha
    rw [List.foldl_cons]
    exact ih _ a (syncAddStep_mem_mono st t a ha)

theorem syncAdds_mem :
    ∀ (ts : List String) (st : Config × List String) (a : String),
      a ∈ ts → a ∈ (ts.foldl syncAddStep st).1.keywords := by
  intro ts
  induction ts with
  | nil => intro st a ha; cases ha
  | cons t rest ih =>
    intro st a ha
    rw [List.foldl_cons]
    rcases List.mem_cons.mp ha with h | h
    · subst h
      exact syncAdds_mem_mono rest _ a (syncAddStep_mem_self st a)
    · exact ih _ a h

theorem syncAdds_shape :
    ∀ (ts : List String) (st : Config × List String),
      ∃ new, (ts.foldl syncAddStep st).1.keywords = st.1.keywords ++ new
        ∧ (∀ x ∈ new, x ∈ ts)
        ∧ (ts.foldl syncAddStep st).1.excluded_keywords = st.1.excluded_keywords := by
  intro ts
  induction ts with
  | nil => intro st; exact ⟨[], by simp, by simp, rfl⟩
  | cons t rest ih =>
    intro st
    rw [List.foldl_cons]
    by_cases h : t ∈ st.1.keywords
    · have hstep : syncAddStep st t = st := by
        unfold syncAddStep
        rw [if_pos h]
      rw [hstep]
      obtain ⟨new, h1, h2, h3⟩ := ih st
      exact ⟨new, h1, fun x hx => List.mem_cons_of_mem _ (h2 x hx), h3⟩
    · have hstep : syncAddStep st t
          = ({st.1 with keywords := st.1.keywords ++ [t]}, st.2 ++ [t]) := by
        unfold syncAddStep
        rw [if_neg h]
      rw [hstep]
      obtain ⟨new, h1, h2, h3⟩ :=
        ih ({st.1 with keywords := st.1.keywords ++ [t]}, st.2 ++ [t])
      refine ⟨t :: new, ?_, ?_, by rw [h3]⟩
      · rw [h1]
        simp
      · intro x hx
        rcases List.mem_cons.mp hx with h' | h'
        · subst h'; exact List.mem_cons_self _ _
        · exact List.mem_cons_of_mem _ (h2 x h')

theorem syncAdds_noop :
    ∀ (ts : List String) (st : Config × List String),
      (∀ a ∈ ts, a ∈ st.1.keywords) → ts.foldl syncAddStep st = st := by
  intro ts
  induction ts with
  | nil => intro st _; rfl
  | cons t rest ih =>
    intro st h
    rw [List.foldl_cons]
    have hstep : syncAddStep st t = st := by
      unfold syncAddStep
      rw [if_pos (h t (List.mem_cons_self _ _))]
    rw [hstep]
    exact ih st (fun a ha => h a (List.mem_cons_of_mem _ ha))

theorem syncRemoveStepP_sublist (st : Config × List String) (q : String) :
    List.Sublist (syncRemoveStepP st q).1.keywords st.1.keywords
    ∧ List.Sublist (syncRemoveStepP st q).1.excluded_keywords st.1.excluded_keywords := by
  unfold syncRemoveStepP
  split_ifs with h1 h2 <;>
    exact ⟨by first | exact List.erase_sublist _ _ | exact List.Sublist.refl _,
      by first | exact List.erase_sublist _ _ | exact List.Sublist.refl _⟩

theorem syncRemoveStepP_gone (st : Config × List String) (q : String)
    (h1 : st.1.keywords.count (stripMarker q) ≤ 1)
    (h2 : st.1.excluded_keywords.count (stripMarker q) ≤ 1)
    (h3 : ¬(stripMarker q ∈ st.1.keywords ∧ stripMarker q ∈ st.1.excluded_keywords)) :
    stripMarker q ∉ (syncRemoveStepP st q).1.keywords
    ∧ stripMarker q ∉ (syncRemoveStepP st q).1.excluded_keywords := by
  unfold syncRemoveStepP
  split_ifs with hk hx
  · constructor
    · show stripMarker q ∉ st.1.keywords.erase (stripMarker q)
      intro hmem
      have hc := List.count_erase_self (stripMarker q) st.1.keywords
      have hp1 := List.count_pos_iff.mpr hmem
      have hp2 := List.count_pos_iff.mpr hk
      omega
    · exact fun he => h3 ⟨hk, he⟩
  · refine ⟨hk, ?_⟩
    show stripMarker q ∉ st.1.excluded_keywords.erase (stripMarker q)
    intro hmem
    have hc := List.count_erase_self (stripMarker q) st.1.excluded_keywords
    have hp1 := List.count_pos_iff.mpr hmem
    have hp2 := List.count_pos_iff.mpr hx
    omega
  · exact ⟨hk, hx⟩

theorem syncRemovesP_gone :
    ∀ (rs : List String) (st : Config × List String),
      (∀ r ∈ rs,
        st.1.keywords.count (stripMarker r) ≤ 1
        ∧ st.1.excluded_keywords.count (stripMarker r) ≤ 1
        ∧ ¬(stripMarker r ∈ st.1.keywords ∧ stripMarker r ∈ st.1.excluded_keywords)) →
      ∀ r ∈ rs,
        stripMarker r ∉ (rs.foldl syncRemoveStepP st).1.keywords
        ∧ stripMarker r ∉ (rs.foldl syncRemoveStepP st).1.excluded_keywords := by
  intro rs
  induction rs with
  | nil => intro st _ r hr; cases hr
  | cons q rest ih =>
    intro st hinv r hr
    rw [List.foldl_cons]
    have hstep := syncRemoveStepP_sublist st q
    have hinv' : ∀ r' ∈ rest,
        (syncRemoveStepP st q).1.keywords.count (stripMarker r') ≤ 1
        ∧ (syncRemoveStepP st q).1.excluded_keywords.count (stripMarker r') ≤ 1
        ∧ ¬(stripMarker r' ∈ (syncRemoveStepP st q).1.keywords
            ∧ stripMarker r' ∈ (syncRemoveStepP st q).1.excluded_keywords) := by
      intro r' hr'
      obtain ⟨g1, g2, g3⟩ := hinv r' (List.mem_cons_of_mem _ hr')
      exact ⟨le_trans (hstep.1.count_le _) g1, le_trans (hstep.2.count_le _) g2,
        fun ⟨hk, he⟩ => g3 ⟨hstep.1.subset hk, hstep.2.subset he⟩⟩
    rcases List.mem_cons.mp hr with h | h
    · subst h
      obtain ⟨g1, g2, g3⟩ := hinv r (List.mem_cons_self _ _)
      have hq := syncRemoveStepP_gone st r g1 g2 g3
      have hfin := syncRemovesP_sublist rest (syncRemoveStepP st r)
      exact ⟨fun hmem => hq.1 (hfin.1.subset hmem), fun hmem => hq.2 (hfin.2.subset hmem)⟩
    · exact ih _ hinv' r h

theorem syncRemovesP_keep :
    ∀ (rs : List String) (st : Config × List String) (a : String),
      (∀ r ∈ rs, stripMarker r ≠ a) → a ∈ st.1.keywords →
      a ∈ (rs.foldl syncRemoveStepP st).1.keywords := by
  intro rs
  induction rs with
  | nil => intro st a _ ha; exact ha
  | cons q rest ih =>
    intro st a hne ha
    rw [List.foldl_cons]
    have hstep : a ∈ (syncRemoveStepP st q).1.keywords := by
      unfold syncRemoveStepP
      split_ifs with hk hx
      · show a ∈ st.1.keywords.erase (stripMarker q)
        exact (List.mem_erase_of_ne
          (Ne.symm (hne q (List.mem_cons_self _ _)))).mpr ha
      · exact ha
      · exact ha
    exact ih _ a (fun r hr => hne r (List.mem_cons_of_mem _ hr)) hstep

theorem syncRemovesP_noop :
    ∀ (rs : List String) (st : Config × List String),
      (∀ r ∈ rs, stripMarker r ∉ st.1.keywords ∧ stripMarker r ∉ st.1.excluded_keywords) →
      rs.foldl syncRemoveStepP st = st := by
  intro rs
  induction rs with
  | nil => intro st _; rfl
  | cons q rest ih =>
    intro st h
    rw [List.foldl_cons]
    have hstep : syncRemoveStepP st q = st := by
      unfold syncRemoveStepP
      rw [if_neg (h q (List.mem_cons_self _ _)).1, if_neg (h q (List.mem_cons_self _ _)).2]
    rw [hstep]
    exact ih st (fun r hr => h r (List.mem_cons_of_mem _ hr))

theorem syncRemoveStepL_gone (st : Config × List String) (q : String)
    (h1 : st.1.keywords.count q ≤ 1) :
    q ∉ (syncRemoveStepL st q).1.keywords := by
  unfold syncRemoveStepL
  split_ifs with hk
  · show q ∉ st.1.keywords.erase q
    intro hmem
    have hc := List.count_erase_self q st.1.keywords
    have hp1 := List.count_pos_iff.mpr hmem
    have hp2 := List.count_pos_iff.mpr hk
    omega
  · exact hk

theorem syncRemovesL_gone :
    ∀ (rs : List String) (st : Config × List String),
      (∀ r ∈ rs, st.1.keywords.count r ≤ 1) →
      ∀ r ∈ rs, r ∉ (rs.foldl syncRemoveStepL st).1.keywords := by
  intro rs
  induction rs with
  | nil => intro st _ r hr; cases hr
  | cons q rest ih =>
    intro st hinv r hr
    rw [List.foldl_cons]
    have hstep : List.Sublist (syncRemoveStepL st q).1.keywords st.1.keywords := by
      unfold syncRemoveStepL
      split_ifs with h1
      · exact List.erase_sublist _ _
      · exact List.Sublist.refl _
    have hinv' : ∀ r' ∈ rest, (syncRemoveStepL st q).1.keywords.count r' ≤ 1 :=
      fun r' hr' => le_trans (hstep.count_le _) (hinv r' (List.mem_cons_of_mem _ hr'))
    rcases List.mem_cons.mp hr with h | h
    · subst h
      have hq := syncRemoveStepL_gone st r (hinv r (List.mem_cons_self _ _))
      have hfin := syncRemovesL_sublist rest (syncRemoveStepL st r)
      exact fun hmem => hq (hfin.1.subset hmem)
    · exact ih _ hinv' r h

theorem syncRemovesL_keep :
    ∀ (rs : List String) (st : Config × List String) (a : String),
      (∀ r ∈ rs, r ≠ a) → a ∈ st.1.keywords →
      a ∈ (rs.foldl syncRemoveStepL st).1.keywords := by
  intro rs
  induction rs with
  | nil => intro st a _ ha; exact ha
  | cons q rest ih =>
    intro st a hne ha
    rw [List.foldl_cons]
    have hstep : a ∈ (syncRemoveStepL st q).1.keywords := by
      unfold syncRemoveStepL
      split_ifs with hk
      · show a ∈ st.1.keywords.erase q
        exact (List.mem_erase_of_ne (Ne.symm (hne q (List.mem_cons_self _ _)))).mpr ha
      · exact ha
    exact ih _ a (fun r hr => hne r (List.mem_cons_of_mem _ hr)) hstep

theorem syncRemovesL_noop :
    ∀ (rs : List String) (st : Config × List String),
      (∀ r ∈ rs, r ∉ st.1.keywords) → rs.foldl syncRemoveStepL st = st := by
  intro rs
  induction rs with
  | nil => intro st _; rfl
  | cons q rest ih =>
    intro st h
    rw [List.foldl_cons]
    have hstep : syncRemoveStepL st q = st := by
      unfold syncRemoveStepL
      rw [if_neg (h q (List.mem_cons_self _ _))]
    rw [hstep]
    exact ih st (fun r hr => h r (List.mem_cons_of_mem _ hr))

theorem syncPoller_of_noop (c : Config) (A R : List String)
    (hA : syncAdds c A = (c, [])) (hR : syncRemovesP c R = (c, [])) :
    syncPoller c A R = ⟨c, [], [], false⟩ := by
  have e1 : (syncAdds c A).1 = c := by rw [hA]
  have e2 : (syncAdds c A).2 = ([] : List String) := by rw [hA]
  unfold syncPoller
  rw [e1, e2, hR]
  rfl

theorem syncListener_of_noop (c : Config) (A R : List String)
    (hA : syncAdds c A = (c, [])) (hR : syncRemovesL c R = (c, [])) :
    syncListener c A R = ⟨c, [], [], false⟩ := by
  have e1 : (syncAdds c A).1 = c := by rw [hA]
  have e2 : (syncAdds c A).2 = ([] : List String) := by rw [hA]
  unfold syncListener
  rw [e1, e2, hR]
  rfl

/-! ### Claim C4 -/

/-- C4 counterexample: the claim asserts idempotence for *every*
payload, but a payload whose `add` and `remove` lists share a token is
not idempotent: on the empty configuration, `add = ["X"]`,
`remove = ["X"]` first appends `"X"` and then removes it again, so the
configuration returns to its start state and the second application
reports the same non-empty `added`/`removed` lists, writes the store
again and sends the summary rather than the no-op notification. -/
theorem c4_counterexample :
    (syncPoller ⟨[], [], []⟩ ["X"] ["X"]).config = ⟨[], [], []⟩
    ∧ (syncPoller ⟨[], [], []⟩ ["X"] ["X"]).added = ["X"]
    ∧ (syncPoller (syncPoller ⟨[], [], []⟩ ["X"] ["X"]).config ["X"] ["X"]).added = ["X"]
    ∧ (syncPoller (syncPoller ⟨[], [], []⟩ ["X"] ["X"]).config ["X"] ["X"]).removed = ["X"]
    ∧ (syncCommit (.stored ⟨[], [], []⟩)
        (syncPoller (syncPoller ⟨[], [], []⟩ ["X"] ["X"]).config ["X"] ["X"]) .ok).2
        = SyncNote.updatedOk := by
  refine ⟨by decide, by decide, by decide, by decide, by decide⟩

/-- C4 (amended): the sync procedure is idempotent for payloads whose
`add` list is disjoint from the (stripped) `remove` list, applied to a
configuration with no duplicate inside either list and no token present
in both lists: the second application of such a payload returns the
configuration unchanged with empty `added`/`removed` lists, performs no
write and produces the no-op notification — on the Poller's path and on
the Listener's path alike.  Payloads that add and remove the same token
(or configurations holding a token in both lists) escape this, see the
counterexample. -/
theorem c4_sync_idempotent (cfg : Config) (A R : List String)
    (hK : cfg.keywords.Nodup) (hE : cfg.excluded_keywords.Nodup)
    (hKE : ∀ t ∈ cfg.keywords, t ∉ cfg.excluded_keywords)
    (hRp : ∀ r ∈ R, stripMarker r ∉ A)
    (hRl : ∀ r ∈ R, r ∉ A) :
    (syncPoller (syncPoller cfg A R).config A R =
      ⟨(syncPoller cfg A R).config, [], [], false⟩)
    ∧ (∀ (disk : Disk) (w : WriteOutcome),
        syncCommit disk (syncPoller (syncPoller cfg A R).config A R) w = (disk, .noop))
    ∧ (syncListener (syncListener cfg A R).config A R =
      ⟨(syncListener cfg A R).config, [], [], false⟩)
    ∧ (∀ (disk : Disk) (w : WriteOutcome),
        syncCommit disk (syncListener (syncListener cfg A R).config A R) w = (disk, .noop)) := by
  obtain ⟨new, hsh1, hsh2, hsh3⟩ := syncAdds_shape A (cfg, [])
  -- Poller path
  have hinv1 : ∀ r ∈ R,
      (syncAdds cfg A).1.keywords.count (stripMarker r) ≤ 1
      ∧ (syncAdds cfg A).1.excluded_keywords.count (stripMarker r) ≤ 1
      ∧ ¬(stripMarker r ∈ (syncAdds cfg A).1.keywords
          ∧ stripMarker r ∈ (syncAdds cfg A).1.excluded_keywords) := by
    intro r hr
    have hnew : (stripMarker r) ∉ new := fun hmem => hRp r hr (hsh2 _ hmem)
    refine ⟨?_, ?_, ?_⟩
    · show ((A.foldl syncAddStep (cfg, [])).1.keywords).count (stripMarker r) ≤ 1
      have hcalc : ((A.foldl syncAddStep (cfg, [])).1.keywords).count (stripMarker r)
          = cfg.keywords.count (stripMarker r) + new.count (stripMarker r) := by
        rw [hsh1]
        exact List.count_append _ _ _
      rw [hcalc, List.count_eq_zero.mpr hnew]
      have hle := List.nodup_iff_count_le_one.mp hK (stripMarker r)
      omega
    · show ((A.foldl syncAddStep (cfg, [])).1.excluded_keywords).count (stripMarker r) ≤ 1
      rw [hsh3]
      exact List.nodup_iff_count_le_one.mp hE (stripMarker r)
    · rintro ⟨hk', he'⟩
      rw [show (syncAdds cfg A).1.keywords = (A.foldl syncAddStep (cfg, [])).1.keywords
        from rfl, hsh1] at hk'
      rw [show (syncAdds cfg A).1.excluded_keywords
        = (A.foldl syncAddStep (cfg, [])).1.excluded_keywords from rfl, hsh3] at he'
      rcases List.mem_append.mp hk' with h | h
      · exact hKE _ h he'
      · exact hnew h
  have hF2 := syncRemovesP_gone R ((syncAdds cfg A).1, []) hinv1
  have hF1 : ∀ a ∈ A, a ∈ (syncPoller cfg A R).config.keywords := by
    intro a ha
    have h1 : a ∈ (syncAdds cfg A).1.keywords := syncAdds_mem A (cfg, []) a ha
    exact syncRemovesP_keep R ((syncAdds cfg A).1, []) a
      (fun r hr heq => hRp r hr (by rw [heq]; exact ha)) h1
  have hA4 : syncAdds (syncPoller cfg A R).config A = ((syncPoller cfg A R).config, []) :=
    syncAdds_noop A ((syncPoller cfg A R).config, []) hF1
  have hRno : syncRemovesP (syncPoller cfg A R).config R = ((syncPoller cfg A R).config, []) :=
    syncRemovesP_noop R (((syncPoller cfg A R).config), []) (fun r hr => hF2 r hr)
  have hmainP := syncPoller_of_noop _ A R hA4 hRno
  -- Listener path
  obtain ⟨newL, hls1, hls2, hls3⟩ := syncAdds_shape A (cfg, [])
  have hinvL : ∀ r ∈ R, ((syncAdds cfg A).1.keywords).count r ≤ 1 := by
    intro r hr
    have hnew : r ∉ newL := fun hmem => hRl r hr (hls2 _ hmem)
    show ((A.foldl syncAddStep (cfg, [])).1.keywords).count r ≤ 1
    have hcalc : ((A.foldl syncAddStep (cfg, [])).1.keywords).count r
        = cfg.keywords.count r + newL.count r := by
      rw [hls1]
      exact List.count_append _ _ _
    rw [hcalc, List.count_eq_zero.mpr hnew]
    have hle := List.nodup_iff_count_le_one.mp hK r
    omega
  have hG2 := syncRemovesL_gone R ((syncAdds cfg A).1, []) hinvL
  have hG1 : ∀ a ∈ A, a ∈ (syncListener cfg A R).config.keywords := by
    intro a ha
    have h1 : a ∈ (syncAdds cfg A).1.keywords := syncAdds_mem A (cfg, []) a ha
    exact syncRemovesL_keep R ((syncAdds cfg A).1, []) a
      (fun r hr heq => hRl r hr (by rw [heq]; exact ha)) h1
  have hAL : syncAdds (syncListener cfg A R).config A = ((syncListener cfg A R).config, []) :=
    syncAdds_noop A ((syncListener cfg A R).config, []) hG1
  have hLno : syncRemovesL (syncListener cfg A R).config R
      = ((syncListener cfg A R).config, []) :=
    syncRemovesL_noop R (((syncListener cfg A R).config), []) (fun r hr => hG2 r hr)
  have hmainL := syncListener_of_noop _ A R hAL hLno
  refine ⟨hmainP, ?_, hmainL, ?_⟩
  · intro disk w
    rw [hmainP]
    rfl
  · intro disk w
    rw [hmainL]
    rfl

/-- C4 witness: on configuration `⟨[], ["BTC"], ["SCAM"]⟩`, replaying
the payload `add = ["ETH"]`, `remove = ["BTC", "🚫 SCAM"]` the second
time changes nothing and reports nothing. -/
theorem c4_sync_idempotent_witness :
    syncPoller (syncPoller ⟨[], ["BTC"], ["SCAM"]⟩ ["ETH"] ["BTC", "🚫 SCAM"]).config
        ["ETH"] ["BTC", "🚫 SCAM"]
      = ⟨(syncPoller ⟨[], ["BTC"], ["SCAM"]⟩ ["ETH"] ["BTC", "🚫 SCAM"]).config,
          [], [], false⟩ :=
  (c4_sync_idempotent ⟨[], ["BTC"], ["SCAM"]⟩ ["ETH"] ["BTC", "🚫 SCAM"]
    (by decide) (by decide) (by decide) (by decide) (by decide)).1

/-! ### The text-command procedure with persistence and responses

`runCommand` embeds the whole text-command dispatch (source lines
251–354) including the persistence attempt and the response string sent
back through the alert bot; an empty response string models `continue`
without `send_via_bot`.  The `/status` environment fields are rendered
for the local (non-CI) environment. -/

theorem runBatch_drop_ok (fails : Update → Bool) :
    ∀ (us : List Update) (c : Nat) (l : List Update), (∀ v ∈ us, fails v = false) →
      ∃ c', runBatch fails c (us ++ l) = runBatch fails c' l := by
  intro us
  induction us with
  | nil => intro c l _; exact ⟨c, rfl⟩
  | cons v vs ih =>
    intro c l h
    have hv : fails v = false := h v (List.mem_cons_self _ _)
    have hstep : runBatch fails c ((v :: vs) ++ l) = runBatch fails v.update_id (vs ++ l) := by
      show (if fails v = true then v.update_id else runBatch fails v.update_id (vs ++ l)) = _
      rw [hv, if_neg (by simp)]
    rw [hstep]
    exact ih v.update_id l (fun x hx => h x (List.mem_cons_of_mem _ hx))

/-! ### Claims C5, C6, C9 -/

/-- C5 counterexample: the claim says that whenever `save` returns
`false` the prior on-disk configuration is unchanged; but the source
opens the file in truncating `'w'` mode before dumping, so a failure
during the dump returns `false` *and* leaves the file corrupted rather
than holding the prior configuration. -/
theorem c5_counterexample :
    (save_config (.stored ⟨[], ["BTC"], []⟩) ⟨[], ["BTC", "ETH"], []⟩ .failDump).2 = false
    ∧ (save_config (.stored ⟨[], ["BTC"], []⟩) ⟨[], ["BTC", "ETH"], []⟩ .failDump).1
        ≠ .stored ⟨[], ["BTC"], []⟩ := by
  refine ⟨by decide, by decide⟩

/-- C5 (amended): `save_config` performs a full — but not atomic —
overwrite: it returns `true` exactly on success, storing the new
configuration; on failure it returns `false`, the mutation is not
committed (a subsequent load never yields the mutated configuration)
and the trusted recipient receives the generic error response, but the
prior on-disk content survives only a failure to open — a failure
during the dump leaves the file truncated/corrupt. -/
theorem c5_save_semantics :
    (∀ (d : Disk) (cfg : Config) (w : WriteOutcome),
      (save_config d cfg w).2 = true ↔ w = .ok)
    ∧ (∀ (d : Disk) (cfg : Config), save_config d cfg .ok = (.stored cfg, true))
    ∧ (∀ (d : Disk) (cfg : Config), (save_config d cfg .failOpen).1 = d)
    ∧ (∀ (d : Disk) (cfg : Config), (save_config d cfg .failDump).1 = .corrupt)
    ∧ (∀ w : WriteOutcome, w ≠ .ok →
        (runCommand (.stored ⟨[], ["BTC"], []⟩) .ok "/insert eth" w).2 = genericSaveError
        ∧ load_config (runCommand (.stored ⟨[], ["BTC"], []⟩) .ok "/insert eth" w).1 .ok
            ≠ (⟨[], ["BTC", "ETH"], []⟩ : Config)) := by
  refine ⟨?_, fun d cfg => rfl, fun d cfg => rfl, fun d cfg => rfl, ?_⟩
  · intro d cfg w
    cases w <;> simp [save_config]
  · intro w hw
    cases w with
    | ok => exact absurd rfl hw
    | failOpen => exact ⟨by decide, by decide⟩
    | failDump => exact ⟨by decide, by decide⟩

/-- C5 witness: a failing dump during `/insert eth` yields the generic
error response. -/
theorem c5_save_semantics_witness :
    (save_config (.stored defaultConfig) ⟨[], ["ETH"], []⟩ .ok).2 = true
    ∧ (runCommand (.stored ⟨[], ["BTC"], []⟩) .ok "/insert eth" .failDump).2
        = genericSaveError :=
  ⟨(c5_save_semantics.1 (.stored defaultConfig) ⟨[], ["ETH"], []⟩ .ok).mpr rfl,
    (c5_save_semantics.2.2.2.2 .failDump (by decide)).1⟩

/-- C6: once the Poller's loop reaches an update, the cursor is set to
that update's identifier whether or not its processing fails; a
processing failure leaves the cursor on the failed update, and the next
poll's offset is strictly beyond it, so the update is never
re-delivered; and every poll requests only identifiers strictly after
the cursor. -/
theorem c6_cursor_advances (fails : Update → Bool) (c : Nat) (us : List Update)
    (u : Update) (rest : List Update) (h : ∀ v ∈ us, fails v = false) :
    runBatch fails c (us ++ [u]) = u.update_id
    ∧ (fails u = true →
        runBatch fails c (us ++ u :: rest) = u.update_id
        ∧ u.update_id < nextOffset (runBatch fails c (us ++ u :: rest)))
    ∧ c < nextOffset c := by
  obtain ⟨c1, h1⟩ := runBatch_drop_ok fails us c [u] h
  obtain ⟨c2, h2⟩ := runBatch_drop_ok fails us c (u :: rest) h
  refine ⟨?_, ?_, Nat.lt_succ_self c⟩
  · rw [h1]
    show (if fails u = true then u.update_id else runBatch fails u.update_id []) = u.update_id
    split_ifs <;> rfl
  · intro hf
    have heq : runBatch fails c (us ++ u :: rest) = u.update_id := by
      rw [h2]
      show (if fails u = true then u.update_id else runBatch fails u.update_id rest)
        = u.update_id
      rw [if_pos hf]
    exact ⟨heq, by rw [heq]; exact Nat.lt_succ_self _⟩

/-- C6 witness: update 5 succeeds, update 7 fails, and the cursor ends
on 7 with the next offset 8. -/
theorem c6_cursor_advances_witness :
    runBatch (fun x => x.update_id == 7) 0
        ([⟨5, some 1, .absent, none⟩] ++ (⟨7, some 1, .absent, none⟩ : Update) :: [])
      = 7
    ∧ nextOffset 7 = 8 :=
  ⟨((c6_cursor_advances (fun x => x.update_id == 7) 0 [⟨5, some 1, .absent, none⟩]
      ⟨7, some 1, .absent, none⟩ [] (by decide)).2.1 (by decide)).1.trans (by decide),
    rfl⟩

/-- C9 counterexample: the claim says every untrusted update is
discarded *after a warning log line*; but an update carrying no
`message` (so no sender chat id — e.g. an `edited_message` update) is
discarded with `chat_id = None` falsy, so no warning is logged. -/
theorem c9_counterexample :
    pyStrChat (none : Option Int) ≠ "123"
    ∧ processUpdate "123" (.stored ⟨[], ["BTC"], []⟩) .ok .ok
        ⟨7, none, .absent, some "/insert eth"⟩
        = (.stored ⟨[], ["BTC"], []⟩, [], false) := by
  refine ⟨by decide, by decide⟩

/-- C9 (amended): an update whose stringified sender chat id differs
from the trusted identity is discarded before any command or
sync-payload processing — no configuration mutation, no response sent —
and the warning line is logged exactly when the update carries a truthy
chat id. -/
theorem c9_untrusted_discarded (myId : String) (disk : Disk) (r : ReadOutcome)
    (w : WriteOutcome) (u : Update) (h : pyStrChat u.chat_id ≠ myId) :
    processUpdate myId disk r w u = (disk, [], pyTruthyChat u.chat_id) := by
  unfold processUpdate
  rw [if_pos h]

/-- C9 witness: an untrusted `/insert eth` from chat 456 leaves the
disk alone, sends nothing, and logs the warning. -/
theorem c9_untrusted_discarded_witness :
    processUpdate "123" (.stored ⟨[], ["BTC"], []⟩) .ok .ok
        ⟨7, some 456, .absent, some "/insert eth"⟩
      = (.stored ⟨[], ["BTC"], []⟩, [], true) :=
  (c9_untrusted_discarded "123" (.stored ⟨[], ["BTC"], []⟩) .ok .ok
    ⟨7, some 456, .absent, some "/insert eth"⟩ (by decide)).trans (by decide)

end Monitor
